import Mathlib

/-
Verification of the tda-nn experiment orchestration
(src/experiments/7232020_disk/run.py and csv_loader.py).

The Python code is shallowly embedded: tensors of floats become lists of
rationals, fallible operations return Except values, and the external
collaborators (the network, the optimizer and the landscape library) are
abstracted as function parameters.  Python floats that can be the special
value math.inf are embedded as the type PyFloat below.
-/

namespace TdaNN

/-- Python exceptions that the embedded code can raise. -/
inductive PyError where
  | indexError
  | valueError
  | typeError
  deriving DecidableEq, Repr

/-- A raw CSV cell as produced by csv.reader: either a string that float()
parses to the given rational, or a string that float() rejects (none). -/
abbrev Cell := Option ℚ

/-- Embedding of the float32 to int64 cast performed by Tensor.long in
CSVDataset.getitem: truncation toward zero. -/
def tensor_long (q : ℚ) : ℤ := q.num.tdiv q.den

/-- The inner conversion loop of CSVDataset.init for one row: for j in
range(w), index csv row at j (IndexError if absent) and convert with
float() (ValueError if not numeric).  The first argument j is the current
column, the second the number of columns still to process. -/
def float_rowGo (row : List Cell) : ℕ → ℕ → Except PyError (List ℚ)
  | _, 0 => Except.ok []
  | j, Nat.succ rem =>
    match row.get? j with
    | none => Except.error PyError.indexError
    | some none => Except.error PyError.valueError
    | some (some q) =>
      match float_rowGo row (j + 1) rem with
      | Except.error e => Except.error e
      | Except.ok qs => Except.ok (q :: qs)

/-- Conversion of one data row: for j in range(w): float(row[j]). -/
def float_row (w : ℕ) (row : List Cell) : Except PyError (List ℚ) :=
  float_rowGo row 0 w

/-- Sequencing of a fallible action over a list, mirroring the Python for
loop over the rows: the first raised exception aborts the whole loop. -/
def eachRow {α β : Type} (f : α → Except PyError β) : List α → Except PyError (List β)
  | [] => Except.ok []
  | a :: as =>
    match f a with
    | Except.error e => Except.error e
    | Except.ok b =>
      match eachRow f as with
      | Except.error e => Except.error e
      | Except.ok bs => Except.ok (b :: bs)

/-- Embedding of CSVDataset.init from csv_loader.py.  csv_data is the list
of rows read by csv.reader.  The loop converts, for every non-header row i
and every column j below len(csv_data at index 1), the cell to a float; the
width len(csv_data at index 1) is evaluated as soon as the loop body runs
at i = 0, so a file with a header row only raises IndexError.  Afterwards
torch.tensor(csv_data drop 1) requires a rectangular all-float matrix: a
row longer than row 1 kept its unconverted string cells and the tensor
construction raises.  An entirely empty file skips the loop and yields an
empty tensor. -/
def CSVDataset_init (csv_data : List (List Cell)) : Except PyError (List (List ℚ)) :=
  match csv_data with
  | [] => Except.ok []
  | _ :: _ =>
    match csv_data.get? 1 with
    | none => Except.error PyError.indexError
    | some row1 =>
      match eachRow (fun row =>
          match float_row row1.length row with
          | Except.error e => Except.error e
          | Except.ok qs => Except.ok (qs, row.length)) (csv_data.drop 1) with
      | Except.error e => Except.error e
      | Except.ok rows =>
        if rows.all (fun rq => rq.2 = row1.length) then
          Except.ok (rows.map Prod.fst)
        else Except.error PyError.valueError

/-- Embedding of CSVDataset.len: the first tensor dimension. -/
def CSVDataset_len (t : List (List ℚ)) : ℕ := t.length

/-- Embedding of CSVDataset.getitem: row with the last entry removed paired
with the last entry cast to an integer. -/
def CSVDataset_getitem (t : List (List ℚ)) (i : ℕ) : Option (List ℚ × ℤ) :=
  match t.get? i with
  | none => none
  | some row =>
    match row.getLast? with
    | none => none
    | some lab => some (row.dropLast, tensor_long lab)

example : CSVDataset_init [[none, none], [some 1, some 2]] = Except.ok [[1, 2]] := rfl

example : CSVDataset_init [[none, none], [some 1, none]] = Except.error PyError.valueError := rfl

example : CSVDataset_init [[none, none, none], [some 1, some 2]] = Except.ok [[1, 2]] := rfl

example : CSVDataset_init [[none, none]] = Except.error PyError.indexError := rfl

example : CSVDataset_getitem [[3, 5, 7]] 0 = some ([3, 5], 7) := by decide

/-- A Python float that is either an ordinary finite value or math.inf.
math.inf is the default of the training_threshold command line option. -/
inductive PyFloat where
  | finite (q : ℚ)
  | inf
  deriving DecidableEq, Repr

/-- The comparison acc >= threshold from the train function, where acc is a
finite float (an accuracy) and threshold may be math.inf.  No finite float
compares >= math.inf. -/
def accGe (acc : ℚ) : PyFloat → Bool
  | PyFloat.finite t => decide (t ≤ acc)
  | PyFloat.inf => false

/-- One batch yielded by a DataLoader: the stacked inputs and the matching
integer class targets. -/
structure Batch (I : Type) where
  data : List I
  target : List ℕ

/-- A model as the training harness sees it: its trainable parameters plus
the flag toggled by model.train() and model.eval(). -/
structure ModelState (P : Type) where
  params : P
  trainingMode : Bool

/-- The value pred.eq(target.view_as(pred)).sum().item() of evaluate_once:
the number of positions where the argmax prediction equals the target.
pred is the abstracted composite of the forward pass and argmax. -/
def countCorrect {P I : Type} (pred : P → I → ℕ) (p : P) : List I → List ℕ → ℕ
  | x :: xs, t :: ts => (if pred p x = t then 1 else 0) + countCorrect pred p xs ts
  | _, _ => 0

/-- Embedding of evaluate_once from run.py: fraction of the batch whose
argmax prediction matches the target.  The model state is read, never
written. -/
def evaluate_once {P I : Type} (pred : P → I → ℕ) (m : ModelState P)
    (data : List I) (target : List ℕ) : ℚ :=
  (countCorrect pred m.params data target : ℚ) / (data.length : ℚ)

/-- Embedding of evaluate from run.py: switch the model to eval mode,
accumulate the summed per-batch loss and correct count over the loader, and
return the updated model state together with accuracy and mean loss over
the dataset.  lossFn abstracts the per-sample nll_loss term. -/
def evaluate {P I : Type} (pred : P → I → ℕ) (lossFn : P → I → ℕ → ℚ)
    (m : ModelState P) (batches : List (Batch I)) (datasetLen : ℕ) :
    ModelState P × ℚ × ℚ :=
  let mEval : ModelState P := ⟨m.params, false⟩
  let correct : ℕ := (batches.map (fun b => countCorrect pred mEval.params b.data b.target)).sum
  let testLoss : ℚ :=
    (batches.map (fun b => ((b.data.zip b.target).map (fun s => lossFn mEval.params s.1 s.2)).sum)).sum
  (mEval, (correct : ℚ) / (datasetLen : ℚ), testLoss / (datasetLen : ℚ))

/-- Result of the train function: the final model state, the number of
optimizer.step() calls performed, and whether the early-termination return
was taken. -/
structure TrainOut (P : Type) where
  state : ModelState P
  steps : ℕ
  stopped : Bool

/-- The batch loop of train from run.py.  For each training batch, the
loss is formed, one fresh evaluation batch (evalDraw k, the k-th draw of
next(iter(evaluation_loader))) is scored by evaluate_once on the current
parameters, and if that accuracy reaches the threshold the function
returns at once, before loss.backward() and optimizer.step(); otherwise
optimStep (the abstracted zero_grad/backward/step sequence) updates the
parameters and the loop continues.  k counts loader draws and steps counts
optimizer updates so far. -/
def trainLoop {P I : Type} (pred : P → I → ℕ) (optimStep : P → Batch I → P)
    (evalDraw : ℕ → Batch I) (threshold : PyFloat) :
    List (Batch I) → ℕ → ModelState P → ℕ → TrainOut P
  | [], _, m, steps => ⟨m, steps, false⟩
  | b :: bs, k, m, steps =>
    let e := evalDraw k
    let acc := evaluate_once pred m e.data e.target
    if accGe acc threshold then ⟨m, steps, true⟩
    else trainLoop pred optimStep evalDraw threshold bs (k + 1)
      ⟨optimStep m.params b, m.trainingMode⟩ (steps + 1)

/-- Embedding of train from run.py: model.train() sets the mode flag, then
the batch loop runs over the epoch's training batches. -/
def train {P I : Type} (pred : P → I → ℕ) (optimStep : P → Batch I → P)
    (evalDraw : ℕ → Batch I) (threshold : PyFloat) (batches : List (Batch I))
    (p : P) : TrainOut P :=
  trainLoop pred optimStep evalDraw threshold batches 0 ⟨p, true⟩ 0

/-- Observable outcome of the per-network epoch loop of main: final
parameters, final learning rate of the StepLR schedule, total optimizer
steps, number of train invocations, and the early-stop flag of each
epoch in order. -/
structure EpochOut (P : Type) where
  params : P
  lr : ℚ
  totalSteps : ℕ
  trainCalls : ℕ
  stoppedFlags : List Bool

/-- The epoch loop of main for one network, recursing on the number of
epochs still to run with ix the current epoch index.  Each epoch calls
train with the optimizer at the current learning rate (optimStep lr), on
that epoch's shuffled batch list (batchesOf ix) and evaluation draws
(evalDraw ix), and then scheduler.step() multiplies the learning rate by
gamma (StepLR with step_size 1), whether or not train stopped early. -/
def epochsGo {P I : Type} (pred : P → I → ℕ) (optimStep : ℚ → P → Batch I → P)
    (evalDraw : ℕ → ℕ → Batch I) (threshold : PyFloat)
    (batchesOf : ℕ → List (Batch I)) (gamma : ℚ) :
    ℕ → ℕ → P → ℚ → EpochOut P
  | _, 0, p, lr => ⟨p, lr, 0, 0, []⟩
  | ix, Nat.succ n, p, lr =>
    let r := train pred (optimStep lr) (evalDraw ix) threshold (batchesOf ix) p
    let rest := epochsGo pred optimStep evalDraw threshold batchesOf gamma
      (ix + 1) n r.state.params (lr * gamma)
    ⟨rest.params, rest.lr, r.steps + rest.totalSteps, rest.trainCalls + 1,
      r.stopped :: rest.stoppedFlags⟩

/-- The per-network training section of main (lines 126 to 130 of run.py):
for epoch in range(1, epochs + 1): train(...); scheduler.step(). -/
def mainTrainLoop {P I : Type} (pred : P → I → ℕ) (optimStep : ℚ → P → Batch I → P)
    (evalDraw : ℕ → ℕ → Batch I) (threshold : PyFloat)
    (batchesOf : ℕ → List (Batch I)) (gamma : ℚ) (epochs : ℕ) (p0 : P)
    (lr0 : ℚ) : EpochOut P :=
  epochsGo pred optimStep evalDraw threshold batchesOf gamma 0 epochs p0 lr0

/-- The value of the training_threshold argparse option: math.inf (its
default, a bare float) when the flag is absent, or the list of floats that
nargs plus collects when the flag is given (a single flag value arrives as
a one-element list). -/
inductive ThresholdArg where
  | scalar (t : PyFloat)
  | listOf (ts : List PyFloat)

/-- Embedding of line 127 of run.py, the per-iteration threshold lookup
training_threshold = args.training_threshold[-1] if it >= len(args.training_threshold)
else args.training_threshold[it].  Calling len() on a bare float raises
TypeError, so the scalar default cannot be resolved; for a list, index it
when in range and fall back to the last element otherwise (IndexError on
an empty list). -/
def resolve_training_threshold : ThresholdArg → ℕ → Except PyError PyFloat
  | ThresholdArg.scalar _, _ => Except.error PyError.typeError
  | ThresholdArg.listOf ts, it =>
    if ts.length ≤ it then
      match ts.getLast? with
      | some t => Except.ok t
      | none => Except.error PyError.indexError
    else
      match ts.get? it with
      | some t => Except.ok t
      | none => Except.error PyError.indexError

example : resolve_training_threshold (ThresholdArg.listOf [PyFloat.finite 1, PyFloat.finite 2]) 5 =
    Except.ok (PyFloat.finite 2) := rfl

example : resolve_training_threshold (ThresholdArg.scalar PyFloat.inf) 0 =
    Except.error PyError.typeError := rfl

/-- The two index sets produced by torch.utils.data.random_split(dataset,
lengths): dataset1 and dataset2 as subsets of the dataset's indices. -/
structure SplitResult where
  part1 : Finset ℕ
  part2 : Finset ℕ

/-- What random_split(dataset, two lengths) guarantees about its output:
the two parts partition the index range of the dataset and the second part
has the requested size s. -/
def random_split_spec (n s : ℕ) (sp : SplitResult) : Prop :=
  sp.part1 ∪ sp.part2 = Finset.range n ∧ Disjoint sp.part1 sp.part2 ∧ sp.part2.card = s

instance (n s : ℕ) (sp : SplitResult) : Decidable (random_split_spec n s sp) := by
  unfold random_split_spec; infer_instance

/-- Index set the train_loader samples from: line 113 of run.py constructs
it over the whole dataset, DataLoader(dataset, batch_size, shuffle). -/
def train_loader_indices (n : ℕ) : Finset ℕ := Finset.range n

/-- Index set the evaluation_loader samples from: line 114 of run.py also
constructs it over the whole dataset. -/
def evaluation_loader_indices (n : ℕ) : Finset ℕ := Finset.range n

/-- Index set the landscape_loader samples from: line 115 of run.py
constructs it over dataset2, the second part of the random split. -/
def landscape_loader_indices (sp : SplitResult) : Finset ℕ := sp.part2

/-- One landscape curve as consumed by the result writer of run.py: the
x-grid and the y-values sampled on it. -/
abbrev Curve := List ℚ × List ℚ

/-- A per-network landscape: layer by homology dimension grid of curves. -/
abbrev Landscape := List (List Curve)

/-- Index-carrying map used to embed Python enumerate loops. -/
def mapWithIdx {α β : Type} (f : ℕ → α → β) : ℕ → List α → List β
  | _, [] => []
  | i, a :: as => f i a :: mapWithIdx f (i + 1) as

/-- The y-values of the curve of landscape l at layer i, dimension j. -/
def ysOf (l : Landscape) (i j : ℕ) : List ℚ :=
  (((l.getD i []).getD j ([], [])).2)

/-- The x-grid of the curve of landscape l at layer i, dimension j. -/
def xsOf (l : Landscape) (i j : ℕ) : List ℚ :=
  (((l.getD i []).getD j ([], [])).1)

/-- The y-value of landscape l at layer i, dimension j, grid position k. -/
def yAt (l : Landscape) (i j k : ℕ) : ℚ := (ysOf l i j).getD k 0

/-- The shape of a landscape: per layer and dimension, the lengths of the
x-grid and of the y-value list. -/
def landShape (l : Landscape) : List (List (ℕ × ℕ)) :=
  l.map (fun layer => layer.map (fun c => (c.1.length, c.2.length)))

/-- Elementwise arithmetic mean of n y-value lists, sampled at the first
len grid positions. -/
def meanYs (n : ℕ) (yss : List (List ℚ)) (len : ℕ) : List ℚ :=
  (List.range len).map (fun k => (yss.map (fun ys => ys.getD k 0)).sum / (n : ℚ))

/-- Modelled from the spec: the function average_across_networks lives in
landscape.py, which is absent from src.  Per the spec the averaging
contract is: for every layer and dimension pair, the output curve's
y-values equal the elementwise arithmetic mean of the corresponding
y-values across all networks, and the x-grid is shared and unchanged.  The
output shape follows the first network's landscape, as all inputs are
required to share one shape. -/
def average_across_networks (ls : List Landscape) : Landscape :=
  match ls with
  | [] => []
  | l0 :: _ =>
    mapWithIdx (fun i layer =>
      mapWithIdx (fun j c =>
        (c.1, meanYs ls.length (ls.map (fun l => ysOf l i j)) c.2.length)) 0 layer) 0 l0

example :
    average_across_networks
      [[[(([0, 1, 2] : List ℚ), ([1, 2, 3] : List ℚ))]],
       [[(([0, 1, 2] : List ℚ), ([3, 2, 1] : List ℚ))]],
       [[(([0, 1, 2] : List ℚ), ([2, 2, 2] : List ℚ))]]] =
      [[(([0, 1, 2] : List ℚ), ([2, 2, 2] : List ℚ))]] := by
  norm_num [average_across_networks, mapWithIdx, meanYs, ysOf, List.range_succ]

/-- Decimal digit characters, as produced by Python string formatting. -/
def digitChar : ℕ → Char
  | 0 => '0'
  | 1 => '1'
  | 2 => '2'
  | 3 => '3'
  | 4 => '4'
  | 5 => '5'
  | 6 => '6'
  | 7 => '7'
  | 8 => '8'
  | _ => '9'

/-- Decimal rendering of a natural number as a character list, the way
Python's format method prints a nonnegative integer. -/
def natToDec (n : ℕ) : List Char :=
  if h : n < 10 then [digitChar n]
  else natToDec (n / 10) ++ [digitChar (n % 10)]
decreasing_by exact Nat.div_lt_self (by omega) (by omega)

/-- The file name layer{i}dim{j}.csv from line 145 of run.py, written as a
character list. -/
def fileName (layer_id dim_id : ℕ) : List Char :=
  ['l', 'a', 'y', 'e', 'r'] ++ natToDec layer_id ++ ['d', 'i', 'm'] ++
    natToDec dim_id ++ ['.', 'c', 's', 'v']

/-- One np.savetxt call: the target file name and the single column of
values written to it. -/
structure FileWrite where
  name : List Char
  contents : List ℚ

/-- The inner writer loop of run.py: for dim_id, dim in enumerate(layer):
np.savetxt(layer{layer_id}dim{dim_id}.csv, dim[1]), where dim[1] is the
y-value list of the curve. -/
def writeLayer (layer_id : ℕ) : ℕ → List Curve → List FileWrite
  | _, [] => []
  | dim_id, c :: rest =>
    ⟨fileName layer_id dim_id, c.2⟩ :: writeLayer layer_id (dim_id + 1) rest

/-- The outer writer loop of run.py: for layer_id, layer in
enumerate(landscape_averages). -/
def writeAll : ℕ → List (List Curve) → List FileWrite
  | _, [] => []
  | layer_id, layer :: rest => writeLayer layer_id 0 layer ++ writeAll (layer_id + 1) rest

/-- The save_csv block of main (lines 140 to 145 of run.py): the sequence
of CSV files written for an averaged landscape. -/
def save_csv_files (avg : Landscape) : List FileWrite := writeAll 0 avg

/-- The directory check of line 141 and 142 of run.py: if the landscapes
output directory does not exist it is created, so it exists afterwards in
either case.  The argument and result are the existence flag of the
directory before and after the block. -/
def ensure_output_dir (dirExists : Bool) : Bool :=
  if dirExists then dirExists else true

example : (save_csv_files [[(([0] : List ℚ), ([5] : List ℚ)), (([0] : List ℚ), ([7] : List ℚ))]]).map
    FileWrite.name = [fileName 0 0, fileName 0 1] := by
  simp [save_csv_files, writeAll, writeLayer]

section TrainingLemmas

variable {P I : Type}

theorem evaluate_once_nonneg (pred : P → I → ℕ) (m : ModelState P) (d : List I)
    (tg : List ℕ) : 0 ≤ evaluate_once pred m d tg := by
  unfold evaluate_once
  positivity

theorem accGe_zero (pred : P → I → ℕ) (m : ModelState P) (d : List I) (tg : List ℕ) :
    accGe (evaluate_once pred m d tg) (PyFloat.finite 0) = true := by
  simp [accGe, evaluate_once_nonneg]

theorem trainLoop_inf (pred : P → I → ℕ) (optimStep : P → Batch I → P)
    (evalDraw : ℕ → Batch I) :
    ∀ (bs : List (Batch I)) (k : ℕ) (p : P) (md : Bool) (s : ℕ),
      trainLoop pred optimStep evalDraw PyFloat.inf bs k ⟨p, md⟩ s =
        ⟨⟨bs.foldl optimStep p, md⟩, s + bs.length, false⟩ := by
  intro bs
  induction bs with
  | nil => intro k p md s; simp [trainLoop]
  | cons b bs ih =>
    intro k p md s
    have hadd : s + 1 + bs.length = s + (bs.length + 1) := by omega
    simp only [trainLoop, accGe, Bool.false_eq_true, if_false, List.foldl_cons, ih,
      List.length_cons, hadd]

theorem trainLoop_zero_fires (pred : P → I → ℕ) (optimStep : P → Batch I → P)
    (evalDraw : ℕ → Batch I) (b : Batch I) (bs : List (Batch I)) (k : ℕ)
    (m : ModelState P) (s : ℕ) :
    trainLoop pred optimStep evalDraw (PyFloat.finite 0) (b :: bs) k m s = ⟨m, s, true⟩ := by
  simp only [trainLoop, accGe_zero, if_true]

theorem trainLoop_take_foldl (pred : P → I → ℕ) (optimStep : P → Batch I → P)
    (evalDraw : ℕ → Batch I) (t : PyFloat) :
    ∀ (bs : List (Batch I)) (k : ℕ) (p : P) (md : Bool) (s : ℕ),
      ∃ d, d ≤ bs.length ∧
        (trainLoop pred optimStep evalDraw t bs k ⟨p, md⟩ s).steps = s + d ∧
        (trainLoop pred optimStep evalDraw t bs k ⟨p, md⟩ s).state =
          ⟨(bs.take d).foldl optimStep p, md⟩ := by
  intro bs
  induction bs with
  | nil => intro k p md s; exact ⟨0, by simp [trainLoop]⟩
  | cons b bs ih =>
    intro k p md s
    by_cases h : accGe (evaluate_once pred ⟨p, md⟩ (evalDraw k).data (evalDraw k).target) t = true
    · refine ⟨0, by simp, ?_⟩
      simp only [trainLoop, h, if_true]
      simp
    · have h2 : accGe (evaluate_once pred ⟨p, md⟩ (evalDraw k).data (evalDraw k).target) t = false := by
        simpa using h
      obtain ⟨d, hd, hs, hst⟩ := ih (k + 1) (optimStep p b) md (s + 1)
      refine ⟨d + 1, by simpa using Nat.succ_le_succ hd, ?_, ?_⟩
      · simp only [trainLoop, h2, Bool.false_eq_true, if_false]
        rw [hs]; omega
      · simp only [trainLoop, h2, Bool.false_eq_true, if_false]
        rw [hst]
        simp [List.take_succ_cons]

theorem epochsGo_calls_lr (pred : P → I → ℕ) (optimStep : ℚ → P → Batch I → P)
    (evalDraw : ℕ → ℕ → Batch I) (threshold : PyFloat)
    (batchesOf : ℕ → List (Batch I)) (gamma : ℚ) :
    ∀ (n ix : ℕ) (p : P) (lr : ℚ),
      (epochsGo pred optimStep evalDraw threshold batchesOf gamma ix n p lr).trainCalls = n ∧
      (epochsGo pred optimStep evalDraw threshold batchesOf gamma ix n p lr).lr =
        lr * gamma ^ n := by
  intro n
  induction n with
  | zero => intro ix p lr; simp [epochsGo]
  | succ n ih =>
    intro ix p lr
    simp only [epochsGo]
    obtain ⟨h1, h2⟩ := ih (ix + 1)
      ((train pred (optimStep lr) (evalDraw ix) threshold (batchesOf ix) p).state.params)
      (lr * gamma)
    refine ⟨by rw [h1], ?_⟩
    rw [h2, pow_succ]
    ring

theorem epochsGo_inf (pred : P → I → ℕ) (optimStep : ℚ → P → Batch I → P)
    (evalDraw : ℕ → ℕ → Batch I) (batchesOf : ℕ → List (Batch I)) (gamma : ℚ) :
    ∀ (n ix : ℕ) (p : P) (lr : ℚ),
      (epochsGo pred optimStep evalDraw PyFloat.inf batchesOf gamma ix n p lr).stoppedFlags =
        List.replicate n false ∧
      (epochsGo pred optimStep evalDraw PyFloat.inf batchesOf gamma ix n p lr).totalSteps =
        ((List.range n).map (fun e => (batchesOf (ix + e)).length)).sum := by
  intro n
  induction n with
  | zero => intro ix p lr; simp [epochsGo]
  | succ n ih =>
    intro ix p lr
    simp only [epochsGo]
    have htr : train pred (optimStep lr) (evalDraw ix) PyFloat.inf (batchesOf ix) p =
        ⟨⟨(batchesOf ix).foldl (optimStep lr) p, true⟩, (batchesOf ix).length, false⟩ := by
      unfold train
      rw [trainLoop_inf]
      simp
    obtain ⟨h1, h2⟩ := ih (ix + 1)
      ((train pred (optimStep lr) (evalDraw ix) PyFloat.inf (batchesOf ix) p).state.params)
      (lr * gamma)
    constructor
    · rw [h1, htr]
      simp [List.replicate_succ]
    · rw [h2, htr]
      simp only [List.range_succ_eq_map, List.map_cons, List.map_map, List.sum_cons]
      have hmap : (List.range n).map ((fun e => (batchesOf (ix + e)).length) ∘ Nat.succ) =
          (List.range n).map (fun e => (batchesOf (ix + 1 + e)).length) := by
        apply List.map_congr_left
        intro e _
        simp only [Function.comp_apply]
        congr 2
        omega
      rw [hmap]
      simp

theorem epochsGo_zero_fires (pred : P → I → ℕ) (optimStep : ℚ → P → Batch I → P)
    (evalDraw : ℕ → ℕ → Batch I) (batchesOf : ℕ → List (Batch I)) (gamma : ℚ) :
    ∀ (n ix : ℕ) (p : P) (lr : ℚ), (∀ e, ix ≤ e → e < ix + n → batchesOf e ≠ []) →
      (epochsGo pred optimStep evalDraw (PyFloat.finite 0) batchesOf gamma ix n p lr).totalSteps = 0 ∧
      (epochsGo pred optimStep evalDraw (PyFloat.finite 0) batchesOf gamma ix n p lr).params = p ∧
      (epochsGo pred optimStep evalDraw (PyFloat.finite 0) batchesOf gamma ix n p lr).stoppedFlags =
        List.replicate n true := by
  intro n
  induction n with
  | zero => intro ix p lr _; simp [epochsGo]
  | succ n ih =>
    intro ix p lr hne
    obtain ⟨b, bs, hbs⟩ : ∃ b bs, batchesOf ix = b :: bs := by
      have := hne ix le_rfl (by omega)
      cases h : batchesOf ix with
      | nil => exact absurd h this
      | cons b bs => exact ⟨b, bs, rfl⟩
    have htr : train pred (optimStep lr) (evalDraw ix) (PyFloat.finite 0) (batchesOf ix) p =
        ⟨⟨p, true⟩, 0, true⟩ := by
      unfold train
      rw [hbs, trainLoop_zero_fires]
    simp only [epochsGo, htr]
    obtain ⟨h1, h2, h3⟩ := ih (ix + 1) p (lr * gamma) (fun e he1 he2 => hne e (by omega) (by omega))
    exact ⟨by rw [h1], by rw [h2], by rw [h3]; rfl⟩

end TrainingLemmas

/-- Claim C1: in the training loop, for every model, threshold t and batch,
the evaluation-batch accuracy is computed from the pre-update model state
and training terminates immediately, without applying the current gradient
step, exactly when that accuracy is at least t; with t equal to math.inf
the early-stop check never fires and every batch of every epoch is
trained; with t equal to 0 the check fires on the first batch of training,
so the parameters receive zero optimizer updates over all epochs. -/
theorem claim_C1 {P I : Type} :
    (∀ (pred : P → I → ℕ) (optimStep : P → Batch I → P) (evalDraw : ℕ → Batch I)
        (t : PyFloat) (b : Batch I) (bs : List (Batch I)) (k : ℕ) (m : ModelState P) (s : ℕ),
      (accGe (evaluate_once pred m (evalDraw k).data (evalDraw k).target) t = true →
        trainLoop pred optimStep evalDraw t (b :: bs) k m s = ⟨m, s, true⟩) ∧
      (accGe (evaluate_once pred m (evalDraw k).data (evalDraw k).target) t = false →
        trainLoop pred optimStep evalDraw t (b :: bs) k m s =
          trainLoop pred optimStep evalDraw t bs (k + 1)
            ⟨optimStep m.params b, m.trainingMode⟩ (s + 1))) ∧
    (∀ (pred : P → I → ℕ) (optimStep : ℚ → P → Batch I → P) (evalDraw : ℕ → ℕ → Batch I)
        (batchesOf : ℕ → List (Batch I)) (gamma : ℚ) (epochs : ℕ) (p0 : P) (lr0 : ℚ),
      (mainTrainLoop pred optimStep evalDraw PyFloat.inf batchesOf gamma epochs p0 lr0).stoppedFlags =
        List.replicate epochs false ∧
      (mainTrainLoop pred optimStep evalDraw PyFloat.inf batchesOf gamma epochs p0 lr0).totalSteps =
        ((List.range epochs).map (fun e => (batchesOf e).length)).sum) ∧
    (∀ (pred : P → I → ℕ) (optimStep : ℚ → P → Batch I → P) (evalDraw : ℕ → ℕ → Batch I)
        (batchesOf : ℕ → List (Batch I)) (gamma : ℚ) (epochs : ℕ) (p0 : P) (lr0 : ℚ),
      (∀ e, e < epochs → batchesOf e ≠ []) →
      (mainTrainLoop pred optimStep evalDraw (PyFloat.finite 0) batchesOf gamma epochs p0 lr0).totalSteps = 0 ∧
      (mainTrainLoop pred optimStep evalDraw (PyFloat.finite 0) batchesOf gamma epochs p0 lr0).params = p0 ∧
      (mainTrainLoop pred optimStep evalDraw (PyFloat.finite 0) batchesOf gamma epochs p0 lr0).stoppedFlags =
        List.replicate epochs true) := by
  refine ⟨?_, ?_, ?_⟩
  · intro pred optimStep evalDraw t b bs k m s
    constructor
    · intro h
      simp only [trainLoop, h, if_true]
    · intro h
      simp only [trainLoop, h, Bool.false_eq_true, if_false]
  · intro pred optimStep evalDraw batchesOf gamma epochs p0 lr0
    have := epochsGo_inf pred optimStep evalDraw batchesOf gamma epochs 0 p0 lr0
    simpa [mainTrainLoop] using this
  · intro pred optimStep evalDraw batchesOf gamma epochs p0 lr0 hne
    have := epochsGo_zero_fires pred optimStep evalDraw batchesOf gamma epochs 0 p0 lr0
      (fun e he1 he2 => hne e (by omega))
    simpa [mainTrainLoop] using this

/-- Witness for claim C1: a concrete one-epoch run with threshold 0 whose
single nonempty batch list makes the early-stop fire at once, leaving the
parameters untouched and the step count at zero. -/
theorem claim_C1_witness :
    (mainTrainLoop (fun (_ : ℚ) (_ : ℚ) => 0) (fun _ p _ => p + 1) (fun _ _ => ⟨[0], [0]⟩)
      (PyFloat.finite 0) (fun _ => [⟨[0], [0]⟩]) 1 1 (5 : ℚ) 1).totalSteps = 0 ∧
    (mainTrainLoop (fun (_ : ℚ) (_ : ℚ) => 0) (fun _ p _ => p + 1) (fun _ _ => ⟨[0], [0]⟩)
      (PyFloat.finite 0) (fun _ => [⟨[0], [0]⟩]) 1 1 (5 : ℚ) 1).params = 5 ∧
    (mainTrainLoop (fun (_ : ℚ) (_ : ℚ) => 0) (fun _ p _ => p + 1) (fun _ _ => ⟨[0], [0]⟩)
      (PyFloat.finite 0) (fun _ => [⟨[0], [0]⟩]) 1 1 (5 : ℚ) 1).stoppedFlags =
      List.replicate 1 true :=
  (claim_C1.2.2) (fun _ _ => 0) (fun _ p _ => p + 1) (fun _ _ => ⟨[0], [0]⟩)
    (fun _ => [⟨[0], [0]⟩]) 1 1 (5 : ℚ) 1 (fun e _ => List.cons_ne_nil _ _)

/-- Claim C6: for every ensemble iteration the training loop is invoked
exactly epochs times and the StepLR schedule is stepped once per epoch
regardless of early termination, so the final learning rate is the initial
rate times gamma to the power epochs. -/
theorem claim_C6 {P I : Type} (pred : P → I → ℕ) (optimStep : ℚ → P → Batch I → P)
    (evalDraw : ℕ → ℕ → Batch I) (threshold : PyFloat) (batchesOf : ℕ → List (Batch I))
    (gamma : ℚ) (epochs : ℕ) (p0 : P) (lr0 : ℚ) :
    (mainTrainLoop pred optimStep evalDraw threshold batchesOf gamma epochs p0 lr0).trainCalls =
      epochs ∧
    (mainTrainLoop pred optimStep evalDraw threshold batchesOf gamma epochs p0 lr0).lr =
      lr0 * gamma ^ epochs := by
  have := epochsGo_calls_lr pred optimStep evalDraw threshold batchesOf gamma epochs 0 p0 lr0
  simpa [mainTrainLoop] using this

/-- Claim C9: a CSV file consisting of exactly one row (a header with no
data rows) makes the dataset constructor raise an out-of-bounds IndexError
while reading the second row's length, instead of producing an empty
dataset. -/
theorem claim_C9 (header : List Cell) :
    CSVDataset_init [header] = Except.error PyError.indexError := rfl

/-- Claim C2, evaluated on the code: with the scalar default math.inf the
per-iteration threshold lookup raises a TypeError at iteration 0 because
len() is applied to a bare float, so the scalar is never used; when a list
is configured, a one-element list is used for every iteration, an in-range
iteration index selects its own entry, and an index at or past the length
selects the last entry. -/
theorem claim_C2_eval :
    (∀ (t : PyFloat) (it : ℕ),
      resolve_training_threshold (ThresholdArg.scalar t) it = Except.error PyError.typeError) ∧
    (∀ (t : PyFloat) (it : ℕ),
      resolve_training_threshold (ThresholdArg.listOf [t]) it = Except.ok t) ∧
    (∀ (pre : List PyFloat) (t : PyFloat) (post : List PyFloat),
      resolve_training_threshold (ThresholdArg.listOf (pre ++ t :: post)) pre.length =
        Except.ok t) ∧
    (∀ (t : PyFloat) (ts : List PyFloat) (k : ℕ),
      resolve_training_threshold (ThresholdArg.listOf (t :: ts)) ((t :: ts).length + k) =
        Except.ok ((t :: ts).getLast (List.cons_ne_nil t ts))) := by
  refine ⟨fun t it => rfl, ?_, ?_, ?_⟩
  · intro t it
    cases it with
    | zero => rfl
    | succ n => simp [resolve_training_threshold]
  · intro pre t post
    have hlt : ¬ (pre ++ t :: post).length ≤ pre.length := by
      simp only [List.length_append, List.length_cons]
      omega
    simp only [resolve_training_threshold, hlt, if_false]
    rw [List.get?_append_right (Nat.le_refl _)]
    simp
  · intro t ts k
    have hle : (t :: ts).length ≤ (t :: ts).length + k := Nat.le_add_right _ _
    simp only [resolve_training_threshold, hle, if_true]
    rw [List.getLast?_eq_getLast _ (List.cons_ne_nil t ts)]

/-- Claim C10: the accuracy evaluations leave the trainable parameters
unchanged: the full-dataset evaluate returns a model state with the same
parameters, the per-batch early-stop check returns the model state exactly
as it was when it fires, and over a whole train call the final parameters
are precisely the fold of the optimizer step over the batches that were
stepped, so nothing but optimizer.step touches them. -/
theorem claim_C10 {P I : Type} :
    (∀ (pred : P → I → ℕ) (lossFn : P → I → ℕ → ℚ) (m : ModelState P)
        (batches : List (Batch I)) (datasetLen : ℕ),
      (evaluate pred lossFn m batches datasetLen).1.params = m.params) ∧
    (∀ (pred : P → I → ℕ) (optimStep : P → Batch I → P) (evalDraw : ℕ → Batch I)
        (t : PyFloat) (b : Batch I) (bs : List (Batch I)) (k : ℕ) (m : ModelState P) (s : ℕ),
      accGe (evaluate_once pred m (evalDraw k).data (evalDraw k).target) t = true →
      (trainLoop pred optimStep evalDraw t (b :: bs) k m s).state = m) ∧
    (∀ (pred : P → I → ℕ) (optimStep : P → Batch I → P) (evalDraw : ℕ → Batch I)
        (t : PyFloat) (batches : List (Batch I)) (p : P),
      (train pred optimStep evalDraw t batches p).state.params =
        (batches.take ((train pred optimStep evalDraw t batches p).steps)).foldl
          optimStep p) := by
  refine ⟨fun pred lossFn m batches datasetLen => rfl, ?_, ?_⟩
  · intro pred optimStep evalDraw t b bs k m s h
    simp only [trainLoop, h, if_true]
  · intro pred optimStep evalDraw t batches p
    obtain ⟨d, hd, hs, hst⟩ :=
      trainLoop_take_foldl pred optimStep evalDraw t batches 0 p true 0
    unfold train
    rw [hst, hs]
    simp

/-- Witness for claim C10: a concrete firing early-stop check that hands
back the model state it received. -/
theorem claim_C10_witness :
    (trainLoop (fun (_ : ℚ) (_ : ℚ) => 0) (fun p _ => p + 1) (fun _ => ⟨[0], [0]⟩)
      (PyFloat.finite 0) [⟨[0], [0]⟩] 0 ⟨7, true⟩ 0).state = ⟨7, true⟩ :=
  claim_C10.2.1 (fun _ _ => 0) (fun p _ => p + 1) (fun _ => ⟨[0], [0]⟩) (PyFloat.finite 0)
    ⟨[0], [0]⟩ [] 0 ⟨7, true⟩ 0 (accGe_zero _ _ _ _)

/-- Claim C3 counterexample: a dataset of two samples split into dataset1
and dataset2 of one sample each satisfies the random_split contract, yet
the landscape loader's index set (dataset2) is not disjoint from the index
sets of the training and evaluation loaders, because run.py builds those
two loaders over the whole dataset rather than over dataset1. -/
theorem claim_C3_counterexample :
    random_split_spec 2 1 ⟨{0}, {1}⟩ ∧
    ¬ Disjoint (train_loader_indices 2) (landscape_loader_indices ⟨{0}, {1}⟩) ∧
    ¬ Disjoint (evaluation_loader_indices 2) (landscape_loader_indices ⟨{0}, {1}⟩) := by
  refine ⟨?_, ?_, ?_⟩ <;> decide

/-- Claim C3 as amended: the landscape batch is drawn from dataset2, the
second part of the random split, which is disjoint from the unused
dataset1; but the training and evaluation loaders are built over the full
dataset, so the landscape indices are contained in both loaders' index
sets and, whenever the landscape split is nonempty, not disjoint from
them. -/
theorem claim_C3_amended (n s : ℕ) (sp : SplitResult) (h : random_split_spec n s sp) :
    landscape_loader_indices sp ⊆ train_loader_indices n ∧
    landscape_loader_indices sp ⊆ evaluation_loader_indices n ∧
    Disjoint sp.part1 sp.part2 ∧
    (0 < s → ¬ Disjoint (train_loader_indices n) (landscape_loader_indices sp)) := by
  obtain ⟨hu, hdisj, hcard⟩ := h
  have hsub : sp.part2 ⊆ Finset.range n := by
    rw [← hu]
    exact Finset.subset_union_right
  refine ⟨hsub, hsub, hdisj, ?_⟩
  intro hs hcontra
  obtain ⟨x, hx⟩ : sp.part2.Nonempty := Finset.card_pos.mp (hcard ▸ hs)
  exact (Finset.disjoint_left.mp hcontra (hsub hx)) hx

/-- Witness for the amended claim C3 at the concrete two-element split. -/
theorem claim_C3_witness :
    landscape_loader_indices ⟨{0}, {1}⟩ ⊆ train_loader_indices 2 ∧
    landscape_loader_indices ⟨{0}, {1}⟩ ⊆ evaluation_loader_indices 2 ∧
    Disjoint (SplitResult.mk {0} {1}).part1 (SplitResult.mk {0} {1}).part2 ∧
    ¬ Disjoint (train_loader_indices 2) (landscape_loader_indices ⟨{0}, {1}⟩) := by
  have h := claim_C3_amended 2 1 ⟨{0}, {1}⟩ (by decide)
  exact ⟨h.1, h.2.1, h.2.2.1, h.2.2.2 (by decide)⟩

section LoaderLemmas

theorem float_rowGo_map_some (r : List ℚ) :
    ∀ (rem j : ℕ), j + rem ≤ r.length →
      float_rowGo (r.map some) j rem = Except.ok ((r.drop j).take rem) := by
  intro rem
  induction rem with
  | zero => intro j h; simp [float_rowGo]
  | succ rem ih =>
    intro j h
    have hj : j < r.length := by omega
    have hget : (r.map some).get? j = some (some r[j]) := by
      rw [List.get?_map, List.get?_eq_get hj]
      rfl
    simp only [float_rowGo, hget]
    rw [ih (j + 1) (by omega)]
    rw [List.drop_eq_getElem_cons hj]
    rfl

theorem float_row_map_some (r : List ℚ) : float_row r.length (r.map some) = Except.ok r := by
  unfold float_row
  rw [float_rowGo_map_some r r.length 0 (by omega)]
  simp

theorem float_rowGo_ok_bound (row : List Cell) :
    ∀ (rem j : ℕ) (v : List ℚ), float_rowGo row j rem = Except.ok v →
      rem = 0 ∨ j + rem ≤ row.length := by
  intro rem
  induction rem with
  | zero => intro j v _; exact Or.inl rfl
  | succ rem ih =>
    intro j v hok
    right
    unfold float_rowGo at hok
    cases hg : row.get? j with
    | none => rw [hg] at hok; exact absurd hok (by simp)
    | some c =>
      have hj : j < row.length := by
        by_contra hc
        rw [List.get?_eq_none.mpr (by omega)] at hg
        exact absurd hg (by simp)
      cases c with
      | none => rw [hg] at hok; exact absurd hok (by simp)
      | some q =>
        rw [hg] at hok
        cases hrec : float_rowGo row (j + 1) rem with
        | error e => rw [hrec] at hok; exact absurd hok (by simp)
        | ok qs =>
          rcases ih (j + 1) qs hrec with h0 | hb
          · omega
          · omega

theorem float_rowGo_ok_no_none (row : List Cell) :
    ∀ (rem j : ℕ) (v : List ℚ), float_rowGo row j rem = Except.ok v →
      ∀ jj, j ≤ jj → jj < j + rem → row.get? jj ≠ some none := by
  intro rem
  induction rem with
  | zero => intro j v _ jj h1 h2; omega
  | succ rem ih =>
    intro j v hok jj h1 h2
    unfold float_rowGo at hok
    cases hg : row.get? j with
    | none => rw [hg] at hok; exact absurd hok (by simp)
    | some c =>
      cases c with
      | none => rw [hg] at hok; exact absurd hok (by simp)
      | some q =>
        rw [hg] at hok
        cases hrec : float_rowGo row (j + 1) rem with
        | error e => rw [hrec] at hok; exact absurd hok (by simp)
        | ok qs =>
          rcases Nat.eq_or_lt_of_le h1 with heq | hlt
          · rw [← heq, hg]; simp
          · exact ih (j + 1) qs hrec jj (by omega) (by omega)

theorem float_row_err_short (w : ℕ) (row : List Cell) (hshort : row.length < w) :
    ∃ e, float_row w row = Except.error e := by
  cases hres : float_row w row with
  | error e => exact ⟨e, rfl⟩
  | ok v =>
    rcases float_rowGo_ok_bound row w 0 v hres with h0 | hb
    · omega
    · omega

theorem float_row_err_none (w : ℕ) (row : List Cell) (jj : ℕ) (hjj : jj < w)
    (hcell : row.get? jj = some none) :
    ∃ e, float_row w row = Except.error e := by
  cases hres : float_row w row with
  | error e => exact ⟨e, rfl⟩
  | ok v => exact absurd hcell (float_rowGo_ok_no_none row w 0 v hres jj (by omega) (by omega))

theorem eachRow_err_of_mem {α β : Type} (f : α → Except PyError β) :
    ∀ (l : List α) (a : α), a ∈ l → (∀ v, f a ≠ Except.ok v) →
      ∃ e, eachRow f l = Except.error e := by
  intro l
  induction l with
  | nil => intro a ha; cases ha
  | cons b bs ih =>
    intro a ha he
    rcases List.mem_cons.mp ha with rfl | hmem
    · cases hf : f a with
      | error e => exact ⟨e, by simp [eachRow, hf]⟩
      | ok v => exact absurd hf (he v)
    · cases hf : f b with
      | error e => exact ⟨e, by simp [eachRow, hf]⟩
      | ok v =>
        obtain ⟨e, hrec⟩ := ih a hmem he
        exact ⟨e, by simp [eachRow, hf, hrec]⟩

theorem eachRow_ok_mem {α β : Type} (f : α → Except PyError β) :
    ∀ (l : List α) (bs : List β), eachRow f l = Except.ok bs →
      ∀ a ∈ l, ∃ b ∈ bs, f a = Except.ok b := by
  intro l
  induction l with
  | nil => intro bs _ a ha; cases ha
  | cons c cs ih =>
    intro bs hok a ha
    unfold eachRow at hok
    cases hf : f c with
    | error e => rw [hf] at hok; exact absurd hok (by simp)
    | ok b =>
      rw [hf] at hok
      cases hrec : eachRow f cs with
      | error e => rw [hrec] at hok; exact absurd hok (by simp)
      | ok bs2 =>
        rw [hrec] at hok
        obtain rfl : b :: bs2 = bs := by simpa using hok
        rcases List.mem_cons.mp ha with rfl | hmem
        · exact ⟨b, by simp, hf⟩
        · obtain ⟨b2, hb2, hfb2⟩ := ih bs2 hrec a hmem
          exact ⟨b2, by simp [hb2], hfb2⟩

theorem eachRow_rows (w : ℕ) :
    ∀ (rows : List (List ℚ)), (∀ r ∈ rows, r.length = w) →
      eachRow (fun row => match float_row w row with
        | Except.error e => Except.error e
        | Except.ok qs => Except.ok (qs, row.length)) (rows.map (fun r => r.map some)) =
      Except.ok (rows.map (fun r => (r, w))) := by
  intro rows
  induction rows with
  | nil => intro _; rfl
  | cons r rs ih =>
    intro h
    have hr : r.length = w := h r (by simp)
    have hfr : float_row w (r.map some) = Except.ok r := by
      rw [← hr]; exact float_row_map_some r
    simp only [List.map_cons, eachRow, hfr]
    rw [ih (fun x hx => h x (by simp [hx]))]
    simp [hr]

/-- Unfolding of CSVDataset_init on a file with a header and at least one
data row: convert every data row against the first data row's width, then
require the converted matrix to be rectangular. -/
theorem init_unfold (header r1 : List Cell) (rest : List (List Cell)) :
    CSVDataset_init (header :: r1 :: rest) =
      match eachRow (fun row => match float_row r1.length row with
        | Except.error e => Except.error e
        | Except.ok qs => Except.ok (qs, row.length)) (r1 :: rest) with
      | Except.error e => Except.error e
      | Except.ok rows =>
        if rows.all (fun rq => rq.2 = r1.length) then Except.ok (rows.map Prod.fst)
        else Except.error PyError.valueError := rfl

theorem init_ok_uniform (header : List Cell) (rows : List (List ℚ)) (w : ℕ)
    (hne : rows ≠ []) (hlen : ∀ r ∈ rows, r.length = w) :
    CSVDataset_init (header :: rows.map (fun r => r.map some)) = Except.ok rows := by
  obtain ⟨r0, rest, rfl⟩ := List.exists_cons_of_ne_nil hne
  have hw0 : (r0.map some).length = w := by
    simp [hlen r0 (by simp)]
  simp only [List.map_cons]
  rw [init_unfold, hw0]
  have heach := eachRow_rows w (r0 :: rest) hlen
  simp only [List.map_cons] at heach
  rw [heach]
  have hmapfst : ∀ (l : List (List ℚ)), List.map (Prod.fst ∘ fun r => (r, w)) l = l := by
    intro l
    induction l with
    | nil => rfl
    | cons x xs ih => simp [ih]
  simp [hmapfst]

theorem init_err_of_bad_width (header r1 : List Cell) (rest : List (List Cell))
    (r : List Cell) (hr : r ∈ r1 :: rest) (hbad : r.length ≠ r1.length) :
    ∃ e, CSVDataset_init (header :: r1 :: rest) = Except.error e := by
  rw [init_unfold]
  cases heach : eachRow (fun row => match float_row r1.length row with
      | Except.error e => Except.error e
      | Except.ok qs => Except.ok (qs, row.length)) (r1 :: rest) with
  | error e => exact ⟨e, rfl⟩
  | ok rows =>
    obtain ⟨b, hb, hfb⟩ := eachRow_ok_mem _ (r1 :: rest) rows heach r hr
    have hb2 : b.2 = r.length := by
      cases hfr : float_row r1.length r with
      | error e => rw [hfr] at hfb; exact absurd hfb (by simp)
      | ok qs =>
        rw [hfr] at hfb
        have : (qs, r.length) = b := by simpa using hfb
        rw [← this]
    have hall : rows.all (fun rq => decide (rq.2 = r1.length)) = false := by
      by_contra hc
      have htrue : rows.all (fun rq => decide (rq.2 = r1.length)) = true := by
        simpa using hc
      have := List.all_eq_true.mp htrue b hb
      simp only [decide_eq_true_eq] at this
      omega
    refine ⟨PyError.valueError, ?_⟩
    show (if (rows.all fun rq => decide (rq.2 = r1.length)) = true then
        Except.ok (rows.map Prod.fst) else Except.error PyError.valueError) =
      Except.error PyError.valueError
    rw [hall]
    simp

theorem init_err_of_none_cell (header r1 : List Cell) (rest : List (List Cell))
    (r : List Cell) (hr : r ∈ r1 :: rest) (huniform : ∀ x ∈ r1 :: rest, x.length = r1.length)
    (hnone : none ∈ r) :
    ∃ e, CSVDataset_init (header :: r1 :: rest) = Except.error e := by
  rw [init_unfold]
  obtain ⟨jj, hjj⟩ := List.get?_of_mem hnone
  have hjlt : jj < r.length := by
    by_contra hc
    rw [List.get?_eq_none.mpr (by omega)] at hjj
    exact absurd hjj (by simp)
  have hfe : ∀ v, (fun row => match float_row r1.length row with
      | Except.error e => Except.error e
      | Except.ok qs => Except.ok (qs, row.length)) r ≠ Except.ok v := by
    intro v hv
    simp only [] at hv
    obtain ⟨e, he⟩ := float_row_err_none r1.length r jj (by rw [← huniform r hr]; omega) hjj
    rw [he] at hv
    exact absurd hv (by simp)
  obtain ⟨e, he⟩ := eachRow_err_of_mem (fun row => match float_row r1.length row with
      | Except.error e => Except.error e
      | Except.ok qs => Except.ok (qs, row.length)) (r1 :: rest) r hr hfe
  exact ⟨e, by rw [he]⟩

end LoaderLemmas

/-- Claim C4: for every valid CSV input (a header row plus at least one
data row, all data cells numeric, uniform row width w with a label
column), loading succeeds, the dataset length is the row count minus one,
and every sample is the pair of the feature vector (all columns but the
last, so of length w minus one) and the last column's value cast to an
integer class id. -/
theorem claim_C4 (header : List Cell) (rows : List (List ℚ)) (w : ℕ)
    (hw : 1 ≤ w) (hne : rows ≠ []) (hlen : ∀ r ∈ rows, r.length = w)
    (hheader : header.length = w) :
    CSVDataset_init (header :: rows.map (fun r => r.map some)) = Except.ok rows ∧
    CSVDataset_len rows = (header :: rows.map (fun r => r.map some)).length - 1 ∧
    ∀ i r, rows.get? i = some r →
      CSVDataset_getitem rows i = some (r.dropLast, tensor_long (r.getLastD 0)) ∧
      r.dropLast.length = w - 1 := by
  refine ⟨init_ok_uniform header rows w hne hlen, ?_, ?_⟩
  · simp [CSVDataset_len]
  · intro i r hir
    have hrmem : r ∈ rows := List.get?_mem hir
    have hrlen : r.length = w := hlen r hrmem
    have hrne : r ≠ [] := by
      intro hcon
      rw [hcon] at hrlen
      simp at hrlen
      omega
    constructor
    · have hstep : CSVDataset_getitem rows i =
          match r.getLast? with
          | none => none
          | some lab => some (r.dropLast, tensor_long lab) := by
        unfold CSVDataset_getitem
        rw [hir]
      rw [hstep, List.getLast?_eq_getLast r hrne]
      have hlast : r.getLast hrne = r.getLastD 0 := by
        rw [List.getLastD_eq_getLast?, List.getLast?_eq_getLast r hrne]
        rfl
      rw [hlast]
    · rw [List.length_dropLast, hrlen]

/-- Witness for claim C4 on the two-column file with header and the single
data row 3,5: the dataset loads, and the sample is the feature vector with
the 3 and the label 5. -/
theorem claim_C4_witness :
    CSVDataset_init [[none, none], [some (3 : ℚ), some 5]] = Except.ok [[3, 5]] ∧
    CSVDataset_getitem [[(3 : ℚ), 5]] 0 = some ([(3 : ℚ)], tensor_long 5) ∧
    ([(3 : ℚ), 5].dropLast).length = 2 - 1 := by
  obtain ⟨h1, h2, h3⟩ := claim_C4 [none, none] [[3, 5]] 2 (by omega) (by simp)
    (by intro r hr; simp at hr; simp [hr]) rfl
  exact ⟨h1, (h3 0 [3, 5] rfl).1, (h3 0 [3, 5] rfl).2⟩

/-- Claim C7 counterexample: a CSV whose header has three cells while its
single data row has two is a file with rows of inconsistent width, yet the
loader succeeds with the two-cell data row, because the width check only
ever consults the second row's length; the claim that every
inconsistent-width input fails is therefore false as stated. -/
theorem claim_C7_counterexample :
    CSVDataset_init [[none, none, none], [some (1 : ℚ), some 2]] = Except.ok [[1, 2]] ∧
    ([[none, none, none], ([some (1 : ℚ), some 2] : List Cell)].map List.length) = [3, 2] :=
  ⟨rfl, rfl⟩

/-- Claim C7 as amended: loading fails with an error whenever a data row's
width differs from the first data row's width or a data cell within the
first data row's width is non-numeric, and succeeds on every valid CSV;
the header row's own width is not checked, so an input whose only width
inconsistency is the header still loads. -/
theorem claim_C7 :
    (∀ (header : List Cell) (rows : List (List ℚ)) (w : ℕ), rows ≠ [] →
      (∀ r ∈ rows, r.length = w) →
      CSVDataset_init (header :: rows.map (fun r => r.map some)) = Except.ok rows) ∧
    (∀ (header r1 : List Cell) (rest : List (List Cell)) (r : List Cell),
      r ∈ r1 :: rest → r.length ≠ r1.length →
      ∃ e, CSVDataset_init (header :: r1 :: rest) = Except.error e) ∧
    (∀ (header r1 : List Cell) (rest : List (List Cell)) (r : List Cell),
      r ∈ r1 :: rest → (∀ x ∈ r1 :: rest, x.length = r1.length) → none ∈ r →
      ∃ e, CSVDataset_init (header :: r1 :: rest) = Except.error e) :=
  ⟨fun header rows w hne hlen => init_ok_uniform header rows w hne hlen,
   init_err_of_bad_width, init_err_of_none_cell⟩

/-- Witness for the amended claim C7: a file whose second data row is
wider than the first data row raises an error. -/
theorem claim_C7_witness :
    ∃ e, CSVDataset_init [[none], [some (1 : ℚ)], [some (1 : ℚ), some 2]] =
      Except.error e :=
  claim_C7.2.1 [none] [some (1 : ℚ)] [[some (1 : ℚ), some 2]] [some (1 : ℚ), some 2]
    (by simp) (by decide)

section AvgLemmas

theorem list_getD {α : Type} (l : List α) (n : ℕ) (d : α) :
    l.getD n d = (l.get? n).getD d := by
  rw [List.getD_eq_getElem?_getD, List.get?_eq_getElem?]

theorem mapWithIdx_length {α β : Type} (f : ℕ → α → β) :
    ∀ (l : List α) (s : ℕ), (mapWithIdx f s l).length = l.length := by
  intro l
  induction l with
  | nil => intro s; rfl
  | cons a as ih => intro s; simp [mapWithIdx, ih]

theorem mapWithIdx_get? {α β : Type} (f : ℕ → α → β) :
    ∀ (l : List α) (s k : ℕ),
      (mapWithIdx f s l).get? k = (l.get? k).map (fun a => f (s + k) a) := by
  intro l
  induction l with
  | nil => intro s k; rfl
  | cons a as ih =>
    intro s k
    cases k with
    | zero => simp [mapWithIdx]
    | succ k =>
      simp only [mapWithIdx, List.get?_cons_succ]
      have hsk : s + 1 + k = s + (k + 1) := by omega
      rw [ih (s + 1) k, hsk]

theorem meanYs_length (n : ℕ) (yss : List (List ℚ)) (len : ℕ) :
    (meanYs n yss len).length = len := by
  simp [meanYs]

theorem meanYs_get? (n : ℕ) (yss : List (List ℚ)) (len k : ℕ) (hk : k < len) :
    (meanYs n yss len).get? k =
      some ((yss.map (fun ys => ys.getD k 0)).sum / (n : ℚ)) := by
  unfold meanYs
  rw [List.get?_map, List.get?_range hk]
  rfl

theorem avg_get? (l0 : Landscape) (rest : List Landscape) (i : ℕ) :
    (average_across_networks (l0 :: rest)).get? i =
      (l0.get? i).map (fun layer => mapWithIdx (fun j c =>
        (c.1, meanYs (l0 :: rest).length
          ((l0 :: rest).map (fun l => ysOf l i j)) c.2.length)) 0 layer) := by
  unfold average_across_networks
  rw [mapWithIdx_get?]
  simp

theorem avg_landShape (l0 : Landscape) (rest : List Landscape) :
    landShape (average_across_networks (l0 :: rest)) = landShape l0 := by
  apply List.ext_get?_iff.mpr
  intro i
  simp only [landShape, List.get?_map, avg_get?]
  cases hl0 : l0.get? i with
  | none => rfl
  | some layer =>
    simp only [Option.map_some']
    congr 1
    apply List.ext_get?_iff.mpr
    intro j
    simp only [List.get?_map, mapWithIdx_get?, Nat.zero_add]
    cases hc : layer.get? j with
    | none => rfl
    | some c => simp [meanYs_length]

theorem avg_xsOf (l0 : Landscape) (rest : List Landscape) (i j : ℕ) :
    xsOf (average_across_networks (l0 :: rest)) i j = xsOf l0 i j := by
  unfold xsOf
  rw [list_getD (average_across_networks (l0 :: rest)) i [], avg_get?, list_getD l0 i []]
  cases hl0 : l0.get? i with
  | none => rfl
  | some layer =>
    simp only [Option.map_some', Option.getD_some]
    rw [list_getD (mapWithIdx _ 0 layer) j ([], []), mapWithIdx_get?, Nat.zero_add,
      list_getD layer j ([], [])]
    cases hc : layer.get? j with
    | none => rfl
    | some c => rfl

theorem avg_ys_get? (l0 : Landscape) (rest : List Landscape) (i j : ℕ)
    (layer : List Curve) (c : Curve) (hlayer : l0.get? i = some layer)
    (hc : layer.get? j = some c) (k : ℕ) (hk : k < c.2.length) :
    (ysOf (average_across_networks (l0 :: rest)) i j).get? k =
      some ((((l0 :: rest).map (fun l => yAt l i j k)).sum) /
        (((l0 :: rest).length : ℕ) : ℚ)) := by
  have hys : ysOf (average_across_networks (l0 :: rest)) i j =
      meanYs (l0 :: rest).length ((l0 :: rest).map (fun l => ysOf l i j)) c.2.length := by
    unfold ysOf
    rw [list_getD (average_across_networks (l0 :: rest)) i [], avg_get?, hlayer]
    simp only [Option.map_some', Option.getD_some]
    rw [list_getD (mapWithIdx _ 0 layer) j ([], []), mapWithIdx_get?, Nat.zero_add, hc]
    rfl
  rw [hys, meanYs_get? _ _ _ k hk, List.map_map]
  rfl

end AvgLemmas

/-- Claim C5: for a list of per-network landscapes of identical shape with
a shared x-grid, the averaged landscape keeps the same layer by dimension
shape, keeps the x-grid unchanged, and at every in-range grid position its
y-value is the arithmetic mean of the corresponding y-values across all
networks; in particular averaging the three single-layer single-dimension
curves with y-values 1,2,3 and 3,2,1 and 2,2,2 over a common grid yields
exactly 2,2,2. -/
theorem claim_C5 :
    (∀ (l0 : Landscape) (rest : List Landscape),
      (∀ l ∈ l0 :: rest, landShape l = landShape l0) →
      (∀ l ∈ l0 :: rest, ∀ i j, xsOf l i j = xsOf l0 i j) →
      (landShape (average_across_networks (l0 :: rest)) = landShape l0 ∧
       (∀ i j, xsOf (average_across_networks (l0 :: rest)) i j = xsOf l0 i j) ∧
       (∀ (i j : ℕ) (layer : List Curve) (c : Curve) (k : ℕ),
         l0.get? i = some layer → layer.get? j = some c → k < c.2.length →
         (ysOf (average_across_networks (l0 :: rest)) i j).get? k =
           some ((((l0 :: rest).map (fun l => yAt l i j k)).sum) /
             (((l0 :: rest).length : ℕ) : ℚ))))) ∧
    average_across_networks
      [[[(([0, 1, 2] : List ℚ), ([1, 2, 3] : List ℚ))]],
       [[(([0, 1, 2] : List ℚ), ([3, 2, 1] : List ℚ))]],
       [[(([0, 1, 2] : List ℚ), ([2, 2, 2] : List ℚ))]]] =
      [[(([0, 1, 2] : List ℚ), ([2, 2, 2] : List ℚ))]] := by
  constructor
  · intro l0 rest hshape hgrid
    refine ⟨avg_landShape l0 rest, fun i j => avg_xsOf l0 rest i j, ?_⟩
    intro i j layer c k hlayer hc hk
    exact avg_ys_get? l0 rest i j layer c hlayer hc k hk
  · norm_num [average_across_networks, mapWithIdx, meanYs, ysOf, List.range_succ]

/-- Witness for claim C5 on the three concrete single-curve landscapes:
the averaged landscape has the shape of the first one and its y-value at
layer 0, dimension 0, position 0 is the mean of 1, 3 and 2. -/
theorem claim_C5_witness :
    landShape (average_across_networks
      [[[(([0, 1, 2] : List ℚ), ([1, 2, 3] : List ℚ))]],
       [[(([0, 1, 2] : List ℚ), ([3, 2, 1] : List ℚ))]],
       [[(([0, 1, 2] : List ℚ), ([2, 2, 2] : List ℚ))]]]) =
      landShape [[(([0, 1, 2] : List ℚ), ([1, 2, 3] : List ℚ))]] ∧
    (ysOf (average_across_networks
      [[[(([0, 1, 2] : List ℚ), ([1, 2, 3] : List ℚ))]],
       [[(([0, 1, 2] : List ℚ), ([3, 2, 1] : List ℚ))]],
       [[(([0, 1, 2] : List ℚ), ([2, 2, 2] : List ℚ))]]]) 0 0).get? 0 =
      some ((([[[(([0, 1, 2] : List ℚ), ([1, 2, 3] : List ℚ))]],
        [[(([0, 1, 2] : List ℚ), ([3, 2, 1] : List ℚ))]],
        [[(([0, 1, 2] : List ℚ), ([2, 2, 2] : List ℚ))]]].map
          (fun l => yAt l 0 0 0)).sum) /
        ((([[[(([0, 1, 2] : List ℚ), ([1, 2, 3] : List ℚ))]],
        [[(([0, 1, 2] : List ℚ), ([3, 2, 1] : List ℚ))]],
        [[(([0, 1, 2] : List ℚ), ([2, 2, 2] : List ℚ))]]] :
          List Landscape).length : ℕ) : ℚ)) := by
  have h := claim_C5.1 [[(([0, 1, 2] : List ℚ), ([1, 2, 3] : List ℚ))]]
    [[[(([0, 1, 2] : List ℚ), ([3, 2, 1] : List ℚ))]],
     [[(([0, 1, 2] : List ℚ), ([2, 2, 2] : List ℚ))]]]
    (by decide)
    (by
      intro l hl i j
      fin_cases hl <;> (cases i <;> cases j <;> simp [xsOf]))
  exact ⟨h.1, h.2.2 0 0 [(([0, 1, 2] : List ℚ), ([1, 2, 3] : List ℚ))]
    (([0, 1, 2] : List ℚ), ([1, 2, 3] : List ℚ)) 0 rfl rfl (by norm_num)⟩

section WriterLemmas

/-- Reading a digit string back as a natural number; left inverse of the
decimal rendering. -/
def decValue (l : List Char) : ℕ := l.foldl (fun a c => 10 * a + (c.toNat - 48)) 0

theorem digitChar_isDigit (d : ℕ) : (digitChar d).isDigit = true := by
  unfold digitChar
  split <;> decide

theorem digitChar_val (d : ℕ) (h : d < 10) : (digitChar d).toNat - 48 = d := by
  interval_cases d <;> decide

theorem decValue_natToDec (n : ℕ) : decValue (natToDec n) = n := by
  induction n using Nat.strong_induction_on with
  | _ n ih =>
    rw [natToDec]
    by_cases h : n < 10
    · rw [dif_pos h]
      have hv := digitChar_val n h
      unfold decValue
      simp only [List.foldl_cons, List.foldl_nil]
      omega
    · rw [dif_neg h]
      have hsplit : decValue (natToDec (n / 10) ++ [digitChar (n % 10)]) =
          10 * decValue (natToDec (n / 10)) + ((digitChar (n % 10)).toNat - 48) := by
        unfold decValue
        rw [List.foldl_append]
        rfl
      rw [hsplit, ih (n / 10) (Nat.div_lt_self (by omega) (by omega)),
        digitChar_val (n % 10) (by omega)]
      omega

theorem natToDec_inj (a b : ℕ) (h : natToDec a = natToDec b) : a = b := by
  have := congrArg decValue h
  rwa [decValue_natToDec, decValue_natToDec] at this

theorem natToDec_digits (n : ℕ) : ∀ c ∈ natToDec n, c.isDigit = true := by
  induction n using Nat.strong_induction_on with
  | _ n ih =>
    intro c hc
    rw [natToDec] at hc
    by_cases h : n < 10
    · rw [dif_pos h] at hc
      simp only [List.mem_singleton] at hc
      rw [hc]
      exact digitChar_isDigit n
    · rw [dif_neg h] at hc
      rcases List.mem_append.mp hc with h1 | h2
      · exact ih (n / 10) (Nat.div_lt_self (by omega) (by omega)) c h1
      · simp only [List.mem_singleton] at h2
        rw [h2]
        exact digitChar_isDigit _

/-- Unique decomposition at a non-digit separator: two equal strings that
are each a digit run followed by the separator agree on the digit run. -/
theorem digit_sep_split (sep : Char) (hsep : sep.isDigit = false) :
    ∀ (a c r s : List Char), (∀ x ∈ a, x.isDigit = true) → (∀ x ∈ c, x.isDigit = true) →
      a ++ sep :: r = c ++ sep :: s → a = c ∧ r = s := by
  intro a
  induction a with
  | nil =>
    intro c r s _ hc h
    cases c with
    | nil => simpa using h
    | cons y ys =>
      simp only [List.nil_append, List.cons_append, List.cons.injEq] at h
      obtain ⟨hy, _⟩ := h
      rw [← hy] at hc
      have := hc sep (by simp)
      rw [this] at hsep
      cases hsep
  | cons x xs ih =>
    intro c r s ha hc h
    cases c with
    | nil =>
      simp only [List.cons_append, List.nil_append, List.cons.injEq] at h
      obtain ⟨hy, _⟩ := h
      have := ha x (by simp)
      rw [hy, hsep] at this
      cases this
    | cons y ys =>
      simp only [List.cons_append, List.cons.injEq] at h
      obtain ⟨rfl, h2⟩ := h
      obtain ⟨h3, h4⟩ := ih ys r s (fun z hz => ha z (by simp [hz]))
        (fun z hz => hc z (by simp [hz])) h2
      exact ⟨by rw [h3], h4⟩

theorem fileName_inj (i j k l : ℕ) (h : fileName i j = fileName k l) :
    i = k ∧ j = l := by
  unfold fileName at h
  simp only [List.append_assoc, List.cons_append, List.nil_append, List.cons.injEq,
    true_and] at h
  obtain ⟨hik, hrest⟩ := digit_sep_split 'd' (by decide) (natToDec i) (natToDec k) _ _
    (natToDec_digits i) (natToDec_digits k) h
  simp only [List.cons.injEq, true_and] at hrest
  obtain ⟨hjl, _⟩ := digit_sep_split '.' (by decide) (natToDec j) (natToDec l) _ _
    (natToDec_digits j) (natToDec_digits l) hrest
  exact ⟨natToDec_inj i k hik, natToDec_inj j l hjl⟩

theorem writeLayer_names (lid : ℕ) :
    ∀ (layer : List Curve) (d : ℕ),
      (writeLayer lid d layer).map FileWrite.name =
        (List.range layer.length).map (fun k => fileName lid (d + k)) := by
  intro layer
  induction layer with
  | nil => intro d; rfl
  | cons c cs ih =>
    intro d
    have hup : (List.range cs.length).map (fun k => fileName lid (d + 1 + k)) =
        (List.range cs.length).map ((fun k => fileName lid (d + k)) ∘ Nat.succ) := by
      apply List.map_congr_left
      intro k _
      simp only [Function.comp_apply]
      congr 1
      omega
    simp only [writeLayer, List.map_cons, ih (d + 1), hup, List.length_cons,
      List.range_succ_eq_map, List.map_map, Nat.add_zero]

theorem writeLayer_mem (lid : ℕ) :
    ∀ (layer : List Curve) (d : ℕ) (wf : FileWrite),
      wf ∈ writeLayer lid d layer ↔
        ∃ k c, layer.get? k = some c ∧ wf = ⟨fileName lid (d + k), c.2⟩ := by
  intro layer
  induction layer with
  | nil => intro d wf; simp [writeLayer]
  | cons c cs ih =>
    intro d wf
    simp only [writeLayer, List.mem_cons, ih (d + 1)]
    constructor
    · rintro (rfl | ⟨k, c2, hk, rfl⟩)
      · refine ⟨0, c, rfl, ?_⟩
        rw [Nat.add_zero]
      · refine ⟨k + 1, c2, by simpa using hk, ?_⟩
        have : d + 1 + k = d + (k + 1) := by omega
        rw [this]
    · rintro ⟨k, c2, hk, rfl⟩
      cases k with
      | zero =>
        left
        have hc2 : c = c2 := by simpa using hk
        rw [← hc2, Nat.add_zero]
      | succ k =>
        right
        refine ⟨k, c2, by simpa using hk, ?_⟩
        have : d + (k + 1) = d + 1 + k := by omega
        rw [this]

theorem writeAll_mem :
    ∀ (ls : List (List Curve)) (lid : ℕ) (wf : FileWrite),
      wf ∈ writeAll lid ls ↔
        ∃ i layer j c, ls.get? i = some layer ∧ layer.get? j = some c ∧
          wf = ⟨fileName (lid + i) j, c.2⟩ := by
  intro ls
  induction ls with
  | nil => intro lid wf; simp [writeAll]
  | cons layer rest ih =>
    intro lid wf
    simp only [writeAll, List.mem_append, writeLayer_mem, ih (lid + 1)]
    constructor
    · rintro (⟨k, c, hk, rfl⟩ | ⟨i, layer2, j, c, hi, hj, rfl⟩)
      · refine ⟨0, layer, k, c, rfl, hk, ?_⟩
        have h1 : lid + 0 = lid := by omega
        have h2 : 0 + k = k := by omega
        rw [h1, h2]
      · refine ⟨i + 1, layer2, j, c, by simpa using hi, hj, ?_⟩
        have : lid + 1 + i = lid + (i + 1) := by omega
        rw [this]
    · rintro ⟨i, layer2, j, c, hi, hj, rfl⟩
      cases i with
      | zero =>
        left
        have hl2 : layer = layer2 := by simpa using hi
        subst hl2
        refine ⟨j, c, hj, ?_⟩
        have h1 : lid + 0 = lid := by omega
        have h2 : 0 + j = j := by omega
        rw [h1, h2]
      | succ i =>
        right
        refine ⟨i, layer2, j, c, by simpa using hi, hj, ?_⟩
        have : lid + (i + 1) = lid + 1 + i := by omega
        rw [this]

theorem writeLayer_length (lid : ℕ) :
    ∀ (layer : List Curve) (d : ℕ), (writeLayer lid d layer).length = layer.length := by
  intro layer
  induction layer with
  | nil => intro d; rfl
  | cons c cs ih => intro d; simp [writeLayer, ih]

theorem writeAll_length :
    ∀ (ls : List (List Curve)) (lid : ℕ),
      (writeAll lid ls).length = (ls.map List.length).sum := by
  intro ls
  induction ls with
  | nil => intro lid; rfl
  | cons layer rest ih =>
    intro lid
    simp [writeAll, writeLayer_length, ih]

theorem writeLayer_names_nodup (lid : ℕ) (layer : List Curve) (d : ℕ) :
    ((writeLayer lid d layer).map FileWrite.name).Nodup := by
  rw [writeLayer_names]
  refine List.Nodup.map ?_ (List.nodup_range _)
  intro a b hab
  have := (fileName_inj _ _ _ _ hab).2
  omega

theorem writeAll_names_shape (ls : List (List Curve)) (lid : ℕ) (nm : List Char)
    (hm : nm ∈ (writeAll lid ls).map FileWrite.name) : ∃ i j, nm = fileName (lid + i) j := by
  obtain ⟨wf, hwf, rfl⟩ := List.mem_map.mp hm
  obtain ⟨i, layer, j, c, _, _, rfl⟩ := (writeAll_mem ls lid wf).mp hwf
  exact ⟨i, j, rfl⟩

theorem writeAll_names_nodup :
    ∀ (ls : List (List Curve)) (lid : ℕ),
      ((writeAll lid ls).map FileWrite.name).Nodup := by
  intro ls
  induction ls with
  | nil => intro lid; simp [writeAll]
  | cons layer rest ih =>
    intro lid
    simp only [writeAll, List.map_append]
    rw [List.nodup_append]
    refine ⟨writeLayer_names_nodup lid layer 0, ih (lid + 1), ?_⟩
    intro nm hm1 hm2
    obtain ⟨wf, hwf, rfl⟩ := List.mem_map.mp hm1
    obtain ⟨k, c, hk, rfl⟩ := (writeLayer_mem lid layer 0 wf).mp hwf
    obtain ⟨i, j, hij⟩ := writeAll_names_shape rest (lid + 1) _ hm2
    have hij2 : fileName lid (0 + k) = fileName (lid + 1 + i) j := hij
    have := (fileName_inj _ _ _ _ hij2).1
    omega

end WriterLemmas

/-- Claim C8: when CSV output is enabled (the default) the writer leaves
the output directory existing whether or not it was there, and for an
averaged landscape it emits one file per layer and dimension pair: the
emitted file names are pairwise distinct, the pair at layer i and
dimension j is written to the file named by exactly those two indices with
that pair's averaged y-values as its single column, and the number of
files equals the total number of pairs. -/
theorem claim_C8 :
    (∀ e, ensure_output_dir e = true) ∧
    (∀ avg : Landscape, ((save_csv_files avg).map FileWrite.name).Nodup) ∧
    (∀ (avg : Landscape) (i j : ℕ) (layer : List Curve) (c : Curve),
      avg.get? i = some layer → layer.get? j = some c →
      FileWrite.mk (fileName i j) c.2 ∈ save_csv_files avg) ∧
    (∀ avg : Landscape, (save_csv_files avg).length = (avg.map List.length).sum) := by
  refine ⟨?_, ?_, ?_, ?_⟩
  · intro e
    cases e <;> rfl
  · intro avg
    exact writeAll_names_nodup avg 0
  · intro avg i j layer c hi hj
    apply (writeAll_mem avg 0 _).mpr
    refine ⟨i, layer, j, c, hi, hj, ?_⟩
    have : i = 0 + i := by omega
    rw [← this]
  · intro avg
    exact writeAll_length avg 0

/-- Witness for claim C8: in the two-dimension single-layer averaged
landscape, the curve at layer 0 dimension 1 is written to the file named
for those indices with its y-values as contents. -/
theorem claim_C8_witness :
    FileWrite.mk (fileName 0 1) [7] ∈
      save_csv_files [[(([0] : List ℚ), ([5] : List ℚ)), (([0] : List ℚ), ([7] : List ℚ))]] :=
  claim_C8.2.2.1 [[(([0] : List ℚ), ([5] : List ℚ)), (([0] : List ℚ), ([7] : List ℚ))]]
    0 1 [(([0] : List ℚ), ([5] : List ℚ)), (([0] : List ℚ), ([7] : List ℚ))]
    (([0] : List ℚ), ([7] : List ℚ)) rfl rfl

end TdaNN
